import Mathlib

/-!
Verification of the concurrent streaming transfer core of the notion-uploader
repository: the re-chunking stream (src/lib/stream-rechunker.ts), the retrying
HTTP executor (src/lib/retry.ts) and the bounded-concurrency upload pool
(uploadChunksParallel).  Byte buffers are modelled as lists of naturals,
network effects as explicit event lists, and the pool's scheduling
nondeterminism as an explicit schedule of settlement choices.
-/

namespace Rechunker

/-- Bytes of a Buffer, modelled as the list of its byte values. -/
abbrev Bytes := List Nat

/-- Constant NOTION_CHUNK_SIZE from stream-rechunker.ts (10MB). -/
def NOTION_CHUNK_SIZE : Nat := 10 * 1024 * 1024

/-- Constant PREFETCH_CONCURRENCY from stream-rechunker.ts. -/
def PREFETCH_CONCURRENCY : Nat := 3

/-- Constant SEND_CONCURRENCY from stream-rechunker.ts. -/
def SEND_CONCURRENCY : Nat := 2

/-- Blob locator as in stream-rechunker.ts (interface BlobInfo). -/
structure BlobInfo where
  url : String
  pathname : String
deriving DecidableEq

/-- Loop of prefetchBlobs: pending is the FIFO queue of in-flight fetches
(represented by the bytes their promises resolve to), queue holds the fetched
values of the not-yet-started blobs in sortedBlobs order.  Each iteration
awaits and yields the front of pending and replenishes one fetch at the back,
mirroring the consume-from-front, replenish-at-back loop of the source. -/
def prefetchLoop : List Bytes → List Bytes → List Bytes
  | [], _ => []
  | p :: ps, [] => p :: prefetchLoop ps []
  | p :: ps, q :: qs => p :: prefetchLoop (ps ++ [q]) qs
termination_by pending queue => pending.length + queue.length
decreasing_by
  all_goals simp only [List.length_append, List.length_cons, List.length_nil]
  all_goals omega

/-- Function prefetchBlobs of stream-rechunker.ts: seeds min(concurrency, n)
fetches, then consumes from the front and replenishes at the back.  fetch maps
a blob locator to the bytes its URL resolves to. -/
def prefetchBlobs (fetch : BlobInfo → Bytes) (sortedBlobs : List BlobInfo)
    (concurrency : Nat) : List Bytes :=
  prefetchLoop ((sortedBlobs.map fetch).take concurrency)
    ((sortedBlobs.map fetch).drop concurrency)

/-- Network calls the rechunker makes against the Notion API (sendFileData and
completeMultiPartUpload of lib/notion.ts), in the order they are issued. -/
inductive SendEvent where
  | sendData (uploadId : String) (payload : Bytes) (partNumber : Option Nat)
  | complete (uploadId : String)
deriving DecidableEq

/-- Function streamSinglePart: fetches every blob through the prefetch window,
concatenates them (Buffer.concat) and issues one sendFileData call with no
part number. -/
def streamSinglePart (fetch : BlobInfo → Bytes) (uploadId : String)
    (sortedBlobs : List BlobInfo) : List SendEvent :=
  [SendEvent.sendData uploadId
    (prefetchBlobs fetch sortedBlobs PREFETCH_CONCURRENCY).flatten none]

/-- Mutable state of streamMultiPart: buffer stands for the source's
bufferChunks array, represented by its concatenation (bufferedSize in the
source always equals its total length); partNumber is the next part number;
frames lists the numbered payloads pushed onto the send queue so far, in push
order. -/
structure MPState where
  frames : List (Nat × Bytes)
  buffer : Bytes
  partNumber : Nat
deriving DecidableEq

/-- Inner while loop of streamMultiPart: while bufferedSize ≥ chunkSize, cut
chunkSize bytes (combined.subarray(0, chunkSize)) as the next numbered part
and keep the remainder buffered.  chunkSize is the positive constant
NOTION_CHUNK_SIZE at the call site; the 0 < chunkSize guard only excludes the
degenerate divisor. -/
def flushFull (chunkSize : Nat) (s : MPState) : MPState :=
  if h : 0 < chunkSize ∧ chunkSize ≤ s.buffer.length then
    flushFull chunkSize
      ⟨s.frames ++ [(s.partNumber, s.buffer.take chunkSize)],
        s.buffer.drop chunkSize, s.partNumber + 1⟩
  else s
termination_by s.buffer.length
decreasing_by simp only [List.length_drop]; omega

/-- Body of the for-await loop of streamMultiPart for one arriving block:
append its bytes to the buffer, then flush full parts. -/
def appendBlock (chunkSize : Nat) (s : MPState) (chunk : Bytes) : MPState :=
  flushFull chunkSize { s with buffer := s.buffer ++ chunk }

/-- Numbered parts streamMultiPart hands to the send queue, in flush order:
the for-await loop over the prefetched blocks, followed by the final flush of
a non-empty remainder (the bufferedSize > 0 check). -/
def streamMultiPartFrames (chunkSize : Nat) (blocks : List Bytes) :
    List (Nat × Bytes) :=
  let s := blocks.foldl (appendBlock chunkSize) ⟨[], [], 1⟩
  if 0 < s.buffer.length then s.frames ++ [(s.partNumber, s.buffer)]
  else s.frames

/-- Calls streamMultiPart makes, in issue order: one numbered sendFileData per
flushed part, then completeMultiPartUpload once the queue has drained. -/
def streamMultiPart (fetch : BlobInfo → Bytes) (uploadId : String)
    (sortedBlobs : List BlobInfo) (chunkSize : Nat) : List SendEvent :=
  ((streamMultiPartFrames chunkSize
        (prefetchBlobs fetch sortedBlobs PREFETCH_CONCURRENCY)).map
      fun p => SendEvent.sendData uploadId p.2 (some p.1)) ++
    [SendEvent.complete uploadId]

/-- Expected part count of streamMultiPart: Math.ceil(totalFileSize /
chunkSize) when totalFileSize is passed and truthy (non-zero), undefined
otherwise. -/
def totalPartsOf (chunkSize : Nat) (totalFileSize : Option Nat) : Option Nat :=
  match totalFileSize with
  | some t => if t = 0 then none else some ((t + chunkSize - 1) / chunkSize)
  | none => none

/-- onPartSent invocations of streamMultiPart, one per part whose send
succeeded: the part number paired with totalParts ?? currentPart. -/
def streamMultiPartCallbacks (chunkSize : Nat) (blocks : List Bytes)
    (totalFileSize : Option Nat) : List (Nat × Nat) :=
  (streamMultiPartFrames chunkSize blocks).map
    fun p => (p.1, (totalPartsOf chunkSize totalFileSize).getD p.1)

/-- Successive full chunkSize-byte slices of a buffer: the parts the while
loop of streamMultiPart cuts from it. -/
def fullChunks (chunkSize : Nat) (l : Bytes) : List Bytes :=
  if h : 0 < chunkSize ∧ chunkSize ≤ l.length then
    l.take chunkSize :: fullChunks chunkSize (l.drop chunkSize)
  else []
termination_by l.length
decreasing_by simp only [List.length_drop]; omega

/-- Remainder of a buffer after cutting all full chunkSize-byte slices. -/
def restChunk (chunkSize : Nat) (l : Bytes) : Bytes :=
  if h : 0 < chunkSize ∧ chunkSize ≤ l.length then
    restChunk chunkSize (l.drop chunkSize)
  else l
termination_by l.length
decreasing_by simp only [List.length_drop]; omega

end Rechunker

namespace Retry

/-- Retry-After header of a response, as parseRetryAfter sees it: absent (or
empty), a numeric seconds string, an HTTP date with the given epoch
millisecond timestamp, or an unparseable string. -/
inductive RAHeader where
  | absent
  | seconds (s : ℚ)
  | httpDate (t : ℚ)
  | invalid
deriving DecidableEq

/-- Response as fetchWithRetry inspects it: status code, Retry-After header
and the text body (none models a body whose retrieval throws). -/
structure HttpResponse where
  status : Nat
  retryAfter : RAHeader
  body : Option String
deriving DecidableEq

/-- Field response.ok of the fetch API: status in the 200-299 range. -/
def HttpResponse.ok (r : HttpResponse) : Bool :=
  decide (200 ≤ r.status) && decide (r.status ≤ 299)

/-- Errors a fetch attempt can throw: transport errors (TypeError, or the
AbortError fired by the timeout controller), or any other error. -/
inductive CallError where
  | transport (e : Nat)
  | other (e : Nat)
deriving DecidableEq

/-- Function isRetryableError of retry.ts: TypeError and AbortError (browser
or Node) are retryable, everything else is not. -/
def isRetryableError : CallError → Bool
  | .transport _ => true
  | .other _ => false

/-- Outcome of one fetch attempt. -/
inductive AttemptOutcome where
  | resp (r : HttpResponse)
  | thrown (e : CallError)
deriving DecidableEq

/-- Options of fetchWithRetry (interface RetryOptions).  timeoutMs only
drives the AbortController whose firing surfaces as a transport CallError, so
it needs no field of its own here. -/
structure RetryOptions where
  maxRetries : Nat
  baseDelayMs : ℚ
  maxDelayMs : ℚ
  retryableStatuses : List Nat
deriving DecidableEq

/-- DEFAULT_OPTIONS of retry.ts. -/
def DEFAULT_OPTIONS : RetryOptions :=
  ⟨3, 1000, 30000, [429, 500, 502, 503, 504]⟩

/-- Function parseRetryAfter of retry.ts: a numeric header is a second count
turned into milliseconds; an HTTP date is clamped to a non-negative
millisecond offset from now; an absent or unparseable header gives null. -/
def parseRetryAfter (now : ℚ) (r : HttpResponse) : Option ℚ :=
  match r.retryAfter with
  | .absent => none
  | .seconds s => some (s * 1000)
  | .httpDate t => some (max 0 (t - now))
  | .invalid => none

/-- Function getDelay of retry.ts, with the jitter sample (the value of
Math.random() * baseDelayMs) passed in explicitly:
min(baseDelayMs * 2 ^ attempt + jitter, maxDelayMs). -/
def getDelay (attempt : Nat) (baseDelayMs maxDelayMs jitter : ℚ) : ℚ :=
  min (baseDelayMs * 2 ^ attempt + jitter) maxDelayMs

/-- Terminal outcome of fetchWithRetry: a returned Response (success or
non-retryable status), the thrown "Request failed after N retries (status):
body" Error on exhaustion, or a re-raised attempt error. -/
inductive RetryResult where
  | response (r : HttpResponse)
  | wrapped (maxRetries : Nat) (status : Nat) (body : String)
  | raised (e : CallError)
deriving DecidableEq

/-- Body text embedded in the wrapped terminal error: the response text, or
the "no response body" placeholder when it is empty or its retrieval threw. -/
def bodyOrPlaceholder : Option String → String
  | some s => if s = "" then "no response body" else s
  | none => "no response body"

/-- Trace of one fetchWithRetry run: terminal result, number of fetch
attempts made, and the backoff sleeps in order. -/
structure RetryTrace where
  result : RetryResult
  attempts : Nat
  delays : List ℚ
deriving DecidableEq

/-- Delay slept after a retryable status at the given attempt (lines 104-112
of retry.ts): the exponential-backoff delay, raised to the Retry-After value
when the status is 429 and the header parses. -/
def statusDelay (opts : RetryOptions) (jitter now : ℚ) (attempt : Nat)
    (r : HttpResponse) : ℚ :=
  let delay := getDelay attempt opts.baseDelayMs opts.maxDelayMs jitter
  if r.status = 429 then
    match parseRetryAfter now r with
    | some retryAfterMs => max delay retryAfterMs
    | none => delay
  else delay

/-- Attempt loop of fetchWithRetry from a given attempt index: return a
successful or non-retryable response at once; throw the wrapped error when a
retryable status lands on the last attempt, else sleep and continue; re-raise
a transport error on the last attempt, sleep and continue on earlier ones;
re-raise any non-retryable error.  call gives each attempt's outcome, jitter
each attempt's Math.random() * baseDelayMs sample; the proof argument is the
for-loop bound. -/
def fetchWithRetryGo (call : Nat → AttemptOutcome) (opts : RetryOptions)
    (jitter : Nat → ℚ) (now : ℚ) (attempt : Nat)
    (ha : attempt ≤ opts.maxRetries) : RetryTrace :=
  match call attempt with
  | .resp r =>
    if r.ok then ⟨.response r, 1, []⟩
    else if r.status ∉ opts.retryableStatuses then ⟨.response r, 1, []⟩
    else if h : attempt = opts.maxRetries then
      ⟨.wrapped opts.maxRetries r.status (bodyOrPlaceholder r.body), 1, []⟩
    else
      let rest := fetchWithRetryGo call opts jitter now (attempt + 1) (by omega)
      ⟨rest.result, rest.attempts + 1,
        statusDelay opts (jitter attempt) now attempt r :: rest.delays⟩
  | .thrown e =>
    if isRetryableError e then
      if h : attempt = opts.maxRetries then ⟨.raised e, 1, []⟩
      else
        let rest := fetchWithRetryGo call opts jitter now (attempt + 1) (by omega)
        ⟨rest.result, rest.attempts + 1,
          getDelay attempt opts.baseDelayMs opts.maxDelayMs (jitter attempt) ::
            rest.delays⟩
    else ⟨.raised e, 1, []⟩
termination_by opts.maxRetries - attempt

/-- Function fetchWithRetry of retry.ts, as the trace of its attempt loop
starting at attempt 0. -/
def fetchWithRetry (call : Nat → AttemptOutcome) (opts : RetryOptions)
    (jitter : Nat → ℚ) (now : ℚ) : RetryTrace :=
  fetchWithRetryGo call opts jitter now 0 (Nat.zero_le _)

/-- Attempt outcome that is a response with a retryable (non-ok, listed)
status. -/
def retryableStatusOutcome (opts : RetryOptions) : AttemptOutcome → Bool
  | .resp r => !r.ok && decide (r.status ∈ opts.retryableStatuses)
  | .thrown _ => false

/-- Attempt outcome that consumes one unit of retry budget: a retryable
status, or a retryable (transport) error. -/
def transientOutcome (opts : RetryOptions) : AttemptOutcome → Bool
  | .resp r => !r.ok && decide (r.status ∈ opts.retryableStatuses)
  | .thrown e => isRetryableError e

end Retry

namespace Pool

/-- Settlement of the promise uploadChunksParallel returns. -/
inductive Settled where
  | resolved
  | rejected (e : Nat)
deriving DecidableEq

/-- State of one uploadChunksParallel run.  nextIndex, activeCount, completed
and abortError are the source's closure variables (activeCount as the integer
the source compares against concurrency); inFlight lists the item indices
whose worker promise has not settled yet, in start order; result is the outer
promise; progress records the onProgress calls and started the uploadFn
invocations, both in call order. -/
structure PoolState where
  nextIndex : Nat
  activeCount : ℤ
  inFlight : List Nat
  completed : Nat
  abortError : Option Nat
  result : Option Settled
  progress : List (Nat × Nat)
  started : List Nat
deriving DecidableEq

/-- First-call-wins settlement of a promise: resolving or rejecting after the
first settlement is a no-op. -/
def settleResult : Option Settled → Settled → Option Settled
  | none, x => some x
  | some y, _ => some y

/-- Function startNext of uploadChunksParallel: while a slot is free, an item
remains and no error is latched, invoke uploadFn on the next item. -/
def startNext (concurrency : ℤ) (total : Nat) (s : PoolState) : PoolState :=
  if h : s.activeCount < concurrency ∧ s.nextIndex < total ∧
      s.abortError = none then
    startNext concurrency total
      { s with
        nextIndex := s.nextIndex + 1,
        activeCount := s.activeCount + 1,
        inFlight := s.inFlight ++ [s.nextIndex],
        started := s.started ++ [s.nextIndex] }
  else s
termination_by total - s.nextIndex
decreasing_by
  obtain ⟨h1, h2, h3⟩ := h
  omega

/-- Settlement of the in-flight worker at position pos of s.inFlight, where
outcome item = none stands for a resolving uploadFn promise and some e for
one rejecting with error e: this runs the then/catch continuation of the
source.  An out-of-range pos changes nothing. -/
def settleAt (concurrency : ℤ) (total : Nat) (outcome : Nat → Option Nat)
    (s : PoolState) (pos : Nat) : PoolState :=
  match s.inFlight.get? pos with
  | none => s
  | some item =>
    let s0 := { s with inFlight := s.inFlight.eraseIdx pos }
    match outcome item with
    | none =>
      if s0.abortError ≠ none then s0
      else
        let s1 := { s0 with
          activeCount := s0.activeCount - 1, completed := s0.completed + 1 }
        let s2 := { s1 with progress := s1.progress ++ [(s1.completed, total)] }
        if s2.completed = total then
          { s2 with result := settleResult s2.result Settled.resolved }
        else startNext concurrency total s2
    | some e =>
      if s0.abortError ≠ none then s0
      else { s0 with abortError := some e,
                     result := settleResult s0.result (Settled.rejected e) }

/-- Pool state before any settlement: no item started, nothing completed, the
returned promise pending. -/
def initState : PoolState := ⟨0, 0, [], 0, none, none, [], []⟩

/-- Function uploadChunksParallel up to its first suspension: an empty chunk
list returns (resolving) immediately; otherwise the promise executor seeds
the pool with startNext. -/
def uploadChunksParallel (concurrency : ℤ) (total : Nat) : PoolState :=
  if total = 0 then { initState with result := some Settled.resolved }
  else startNext concurrency total initState

/-- Run of the pool under a schedule: settle the chosen in-flight positions
in order.  The schedule models the nondeterministic order in which worker
promises settle. -/
def runPool (concurrency : ℤ) (total : Nat) (outcome : Nat → Option Nat)
    (sched : List Nat) : PoolState :=
  sched.foldl (settleAt concurrency total outcome)
    (uploadChunksParallel concurrency total)

/-- Invariant of every reachable pool state: the in-flight workers never
exceed the activeCount counter, which never exceeds the concurrency bound;
progress and started always hold exactly the canonical call records; while no
error is latched the counter matches the in-flight set, every started item is
either completed or in flight, and the promise is resolved exactly on full
completion; once an error is latched the promise is rejected with it. -/
def PoolInv (K : ℤ) (total : Nat) (s : PoolState) : Prop :=
  ((s.inFlight.length : ℤ) ≤ s.activeCount) ∧
  (s.activeCount ≤ max K 0) ∧
  (s.progress = (List.range s.completed).map fun i => (i + 1, total)) ∧
  (s.started = List.range s.nextIndex) ∧
  (match s.abortError with
    | none =>
        s.activeCount = (s.inFlight.length : ℤ) ∧
        s.nextIndex = s.completed + s.inFlight.length ∧
        s.nextIndex ≤ total ∧
        s.result = (if s.completed = total then some Settled.resolved
          else none) ∧
        (s.activeCount < K → total ≤ s.nextIndex)
    | some e => s.result = some (Settled.rejected e))

end Pool

namespace Rechunker

theorem prefetchLoop_eq (pending queue : List Bytes)
    (h : pending = [] → queue = []) :
    prefetchLoop pending queue = pending ++ queue := by
  induction pending, queue using prefetchLoop.induct with
  | case1 q => simp [prefetchLoop, h rfl]
  | case2 p ps ih => simp [prefetchLoop, ih]
  | case3 p ps q qs ih => simp [prefetchLoop, ih]

theorem prefetchBlobs_eq (fetch : BlobInfo → Bytes)
    (sortedBlobs : List BlobInfo) (concurrency : Nat) (hc : 0 < concurrency) :
    prefetchBlobs fetch sortedBlobs concurrency = sortedBlobs.map fetch := by
  unfold prefetchBlobs
  rw [prefetchLoop_eq, List.take_append_drop]
  intro h
  rcases List.take_eq_nil_iff.mp h with h0 | h0
  · omega
  · simp only [List.map_eq_nil_iff] at h0
    simp [h0]

theorem chunks_join (cs : Nat) (l : Bytes) :
    (fullChunks cs l).flatten ++ restChunk cs l = l := by
  induction l using fullChunks.induct cs with
  | case1 l h ih =>
    rw [fullChunks, dif_pos h, restChunk, dif_pos h]
    simp only [List.flatten_cons, List.append_assoc, ih, List.take_append_drop]
  | case2 l h =>
    rw [fullChunks, dif_neg h, restChunk, dif_neg h]
    simp

theorem mem_fullChunks_length (cs : Nat) (l : Bytes) :
    ∀ c ∈ fullChunks cs l, c.length = cs := by
  induction l using fullChunks.induct cs with
  | case1 l h ih =>
    rw [fullChunks, dif_pos h]
    intro c hc
    rcases List.mem_cons.mp hc with rfl | hc
    · simp [List.length_take]; omega
    · exact ih c hc
  | case2 l h => rw [fullChunks, dif_neg h]; simp

theorem restChunk_length (cs : Nat) (hcs : 0 < cs) (l : Bytes) :
    (restChunk cs l).length = l.length % cs := by
  induction l using restChunk.induct cs with
  | case1 l h ih =>
    rw [restChunk, dif_pos h, ih, List.length_drop]
    exact (Nat.mod_eq_sub_mod h.2).symm
  | case2 l h =>
    rw [restChunk, dif_neg h, Nat.mod_eq_of_lt (by omega)]

theorem fullChunks_length (cs : Nat) (hcs : 0 < cs) (l : Bytes) :
    (fullChunks cs l).length = l.length / cs := by
  induction l using fullChunks.induct cs with
  | case1 l h ih =>
    rw [fullChunks, dif_pos h, List.length_cons, ih, List.length_drop,
      Nat.div_eq_sub_div hcs h.2]
  | case2 l h =>
    rw [fullChunks, dif_neg h, List.length_nil]
    exact (Nat.div_eq_of_lt (by omega)).symm

theorem restChunk_length_lt (cs : Nat) (hcs : 0 < cs) (l : Bytes) :
    (restChunk cs l).length < cs := by
  rw [restChunk_length cs hcs l]
  exact Nat.mod_lt _ hcs

theorem chunks_append (cs : Nat) (b : Bytes) (a : Bytes) :
    fullChunks cs (a ++ b) =
      fullChunks cs a ++ fullChunks cs (restChunk cs a ++ b) ∧
    restChunk cs (a ++ b) = restChunk cs (restChunk cs a ++ b) := by
  induction a using fullChunks.induct cs with
  | case1 a h ih =>
    have hcond : 0 < cs ∧ cs ≤ (a ++ b).length := by
      constructor
      · omega
      · simp only [List.length_append]; omega
    have hfa : fullChunks cs a = a.take cs :: fullChunks cs (a.drop cs) := by
      rw [fullChunks, dif_pos h]
    have hra : restChunk cs a = restChunk cs (a.drop cs) := by
      rw [restChunk, dif_pos h]
    have hfab : fullChunks cs (a ++ b) =
        (a ++ b).take cs :: fullChunks cs ((a ++ b).drop cs) := by
      rw [fullChunks, dif_pos hcond]
    have hrab : restChunk cs (a ++ b) = restChunk cs ((a ++ b).drop cs) := by
      rw [restChunk, dif_pos hcond]
    rw [hfa, hra, hfab, hrab, List.take_append_of_le_length h.2,
      List.drop_append_of_le_length h.2, List.cons_append]
    exact ⟨congrArg _ ih.1, ih.2⟩
  | case2 a h =>
    have hfa : fullChunks cs a = [] := by rw [fullChunks, dif_neg h]
    have hra : restChunk cs a = a := by rw [restChunk, dif_neg h]
    rw [hfa, hra, List.nil_append]
    exact ⟨rfl, rfl⟩

theorem enumFrom_append {α : Type} (n : Nat) (l₁ l₂ : List α) :
    List.enumFrom n (l₁ ++ l₂) =
      List.enumFrom n l₁ ++ List.enumFrom (n + l₁.length) l₂ := by
  induction l₁ generalizing n with
  | nil => simp
  | cons a l ih =>
    simp only [List.cons_append, List.enumFrom_cons, ih, List.length_cons]
    have hn : n + 1 + l.length = n + (l.length + 1) := by omega
    rw [hn]

theorem flushFull_eq (cs : Nat) (s : MPState) :
    flushFull cs s =
      ⟨s.frames ++ List.enumFrom s.partNumber (fullChunks cs s.buffer),
        restChunk cs s.buffer,
        s.partNumber + (fullChunks cs s.buffer).length⟩ := by
  induction s using flushFull.induct cs with
  | case1 s h ih =>
    have hfb : fullChunks cs s.buffer =
        s.buffer.take cs :: fullChunks cs (s.buffer.drop cs) := by
      rw [fullChunks, dif_pos h]
    have hrb : restChunk cs s.buffer = restChunk cs (s.buffer.drop cs) := by
      rw [restChunk, dif_pos h]
    rw [flushFull, dif_pos h, ih, hfb, hrb]
    simp only [List.enumFrom_cons, List.length_cons, List.append_assoc,
      List.singleton_append, MPState.mk.injEq, true_and, and_true]
    all_goals omega
  | case2 s h =>
    have hfb : fullChunks cs s.buffer = [] := by rw [fullChunks, dif_neg h]
    have hrb : restChunk cs s.buffer = s.buffer := by rw [restChunk, dif_neg h]
    rw [flushFull, dif_neg h, hfb, hrb]
    simp

theorem foldl_appendBlock_eq (cs : Nat) (hcs : 0 < cs) (blocks : List Bytes) :
    ∀ s : MPState, s.buffer.length < cs →
    blocks.foldl (appendBlock cs) s =
      ⟨s.frames ++
          List.enumFrom s.partNumber (fullChunks cs (s.buffer ++ blocks.flatten)),
        restChunk cs (s.buffer ++ blocks.flatten),
        s.partNumber + (fullChunks cs (s.buffer ++ blocks.flatten)).length⟩ := by
  induction blocks with
  | nil =>
    intro s hs
    have hf : fullChunks cs s.buffer = [] := by
      rw [fullChunks, dif_neg (by omega)]
    have hr : restChunk cs s.buffer = s.buffer := by
      rw [restChunk, dif_neg (by omega)]
    simp [hf, hr]
  | cons b bs ih =>
    intro s hs
    rw [List.foldl_cons]
    show bs.foldl (appendBlock cs) (appendBlock cs s b) = _
    rw [appendBlock, flushFull_eq]
    rw [ih _ (restChunk_length_lt cs hcs _)]
    have happ := chunks_append cs bs.flatten (s.buffer ++ b)
    simp only [List.flatten_cons, ← List.append_assoc, happ.1, happ.2,
      enumFrom_append, List.length_append, MPState.mk.injEq, true_and,
      and_true]
    all_goals omega

theorem streamMultiPartFrames_eq (cs : Nat) (hcs : 0 < cs)
    (blocks : List Bytes) :
    streamMultiPartFrames cs blocks =
      if 0 < (restChunk cs blocks.flatten).length then
        List.enumFrom 1 (fullChunks cs blocks.flatten) ++
          [(1 + (fullChunks cs blocks.flatten).length, restChunk cs blocks.flatten)]
      else List.enumFrom 1 (fullChunks cs blocks.flatten) := by
  have h0 : (MPState.mk [] [] 1).buffer.length < cs := by simpa using hcs
  simp only [streamMultiPartFrames]
  rw [foldl_appendBlock_eq cs hcs blocks _ h0]
  simp

theorem ceil_div_spec (F S : Nat) (hF : 0 < F) :
    (S + F - 1) / F = S / F + if S % F = 0 then 0 else 1 := by
  have h1 : S + F - 1 = S + (F - 1) := by omega
  rw [h1, Nat.add_div hF]
  have h2 : (F - 1) / F = 0 := Nat.div_eq_of_lt (by omega)
  have h3 : (F - 1) % F = F - 1 := Nat.mod_eq_of_lt (by omega)
  rw [h2, h3]
  have h4 : S % F < F := Nat.mod_lt _ hF
  rcases Nat.eq_zero_or_pos (S % F) with h5 | h5
  · rw [h5, if_pos rfl, if_neg (by omega)]
  · rw [if_pos (by omega), if_neg (by omega)]

end Rechunker

namespace Rechunker

theorem mem_enumFrom_snd {n : Nat} {l : List Bytes} {p : Nat × Bytes}
    (hp : p ∈ List.enumFrom n l) : p.2 ∈ l := by
  have h := List.mem_map_of_mem Prod.snd hp
  rwa [List.enumFrom_map_snd] at h

/-- C1: in multi-frame mode, a payload of total size S > 0 split over input
blocks and cut at frame size F yields exactly ceil(S/F) frames whose payload
sizes sum to S, all frames but the last being exactly F bytes; when F divides
S the frame count is S/F and every frame (in particular the trailing one) is a
full, non-empty F-byte frame. -/
theorem multiPart_frame_sizes (F : Nat) (blocks : List Bytes) (hF : 0 < F)
    (hS : 0 < blocks.flatten.length) :
    (streamMultiPartFrames F blocks).length =
        (blocks.flatten.length + F - 1) / F ∧
    ((streamMultiPartFrames F blocks).map fun p => p.2.length).sum =
        blocks.flatten.length ∧
    (∀ p ∈ (streamMultiPartFrames F blocks).dropLast, p.2.length = F) ∧
    (F ∣ blocks.flatten.length →
      (streamMultiPartFrames F blocks).length = blocks.flatten.length / F ∧
      ∀ p ∈ streamMultiPartFrames F blocks, p.2.length = F) := by
  have hrl : (restChunk F blocks.flatten).length = blocks.flatten.length % F :=
    restChunk_length F hF blocks.flatten
  have hcl : (fullChunks F blocks.flatten).length = blocks.flatten.length / F :=
    fullChunks_length F hF blocks.flatten
  have hjoin := chunks_join F blocks.flatten
  have hmem := mem_fullChunks_length F blocks.flatten
  have hmap : ∀ c : List Bytes,
      ((List.enumFrom 1 c).map fun p => p.2.length) = c.map List.length := by
    intro c
    rw [show (fun p : Nat × Bytes => p.2.length) =
        List.length ∘ Prod.snd from rfl]
    rw [← List.map_map, List.enumFrom_map_snd]
  rw [streamMultiPartFrames_eq F hF]
  by_cases hmod : blocks.flatten.length % F = 0
  · rw [if_neg (by omega)]
    have hrest : restChunk F blocks.flatten = [] :=
      List.length_eq_zero.mp (by omega)
    have hjc : (fullChunks F blocks.flatten).flatten = blocks.flatten := by
      rw [hrest, List.append_nil] at hjoin
      exact hjoin
    refine ⟨?_, ?_, ?_, ?_⟩
    · rw [List.enumFrom_length, hcl, ceil_div_spec _ _ hF, if_pos hmod]
      omega
    · rw [hmap, ← List.length_flatten, hjc]
    · intro p hp
      exact hmem _ (mem_enumFrom_snd ((List.dropLast_sublist _).subset hp))
    · intro _
      refine ⟨by rw [List.enumFrom_length, hcl], ?_⟩
      intro p hp
      exact hmem _ (mem_enumFrom_snd hp)
  · rw [if_pos (by omega)]
    refine ⟨?_, ?_, ?_, ?_⟩
    · rw [List.length_append, List.enumFrom_length, List.length_singleton,
        hcl, ceil_div_spec _ _ hF, if_neg hmod]
    · rw [List.map_append, hmap, List.map_singleton, List.sum_append,
        List.sum_singleton, ← List.length_flatten, ← List.length_append, hjoin]
    · intro p hp
      rw [List.dropLast_concat] at hp
      exact hmem _ (mem_enumFrom_snd hp)
    · intro hdvd
      exact absurd (Nat.mod_eq_zero_of_dvd hdvd) hmod

theorem multiPart_frame_sizes_witness :
    (streamMultiPartFrames 2 [[1, 2], [3, 4]]).length = 2 ∧
    ((streamMultiPartFrames 2 [[1, 2], [3, 4]]).map
        fun p => p.2.length).sum = 4 ∧
    ∀ p ∈ streamMultiPartFrames 2 [[1, 2], [3, 4]], p.2.length = 2 := by
  have h := multiPart_frame_sizes 2 [[1, 2], [3, 4]] (by norm_num) (by simp)
  have hS : ([[1, 2], [3, 4]] : List Bytes).flatten.length = 4 := by simp
  have h4 := h.2.2.2 (by decide)
  exact ⟨by rw [h4.1, hS], by rw [h.2.1, hS], h4.2⟩

/-- C2: the frame numbers of a multi-frame transfer of N frames are exactly
1..N in flush order, with no gaps or duplicates: the map of first components
of the emitted frame list is the range from 1 of its length.  The numbers are
computed from the partNumber counter at flush time, before the frame is
handed to the send queue, so they do not depend on how sends complete. -/
theorem multiPart_frame_numbers (F : Nat) (blocks : List Bytes) (hF : 0 < F) :
    (streamMultiPartFrames F blocks).map Prod.fst =
      List.range' 1 (streamMultiPartFrames F blocks).length := by
  rw [streamMultiPartFrames_eq F hF]
  by_cases h : 0 < (restChunk F blocks.flatten).length
  · rw [if_pos h]
    simp only [List.map_append, List.enumFrom_map_fst, List.map_singleton,
      List.length_append, List.enumFrom_length, List.length_singleton]
    have hr := List.range'_append_1 1 (fullChunks F blocks.flatten).length 1
    rw [List.range'_one] at hr
    rw [hr, Nat.add_comm]
  · rw [if_neg h, List.enumFrom_map_fst, List.enumFrom_length]

theorem multiPart_frame_numbers_witness :
    (streamMultiPartFrames 2 [[1, 2, 3]]).map Prod.fst =
      List.range' 1 (streamMultiPartFrames 2 [[1, 2, 3]]).length :=
  multiPart_frame_numbers 2 [[1, 2, 3]] (by norm_num)

/-- C8: in single-frame mode the transfer performs exactly one send whose
payload is the concatenation of all input blocks in list (sequenceIndex)
order, with no part number; the prefetch window yields the blocks in input
order; and no completeMultiPartUpload call is issued. -/
theorem singlePart_one_send (fetch : BlobInfo → Bytes) (uploadId : String)
    (sortedBlobs : List BlobInfo) (hne : sortedBlobs ≠ []) :
    streamSinglePart fetch uploadId sortedBlobs =
      [SendEvent.sendData uploadId (sortedBlobs.map fetch).flatten none] ∧
    prefetchBlobs fetch sortedBlobs PREFETCH_CONCURRENCY =
      sortedBlobs.map fetch ∧
    ∀ u, SendEvent.complete u ∉ streamSinglePart fetch uploadId sortedBlobs := by
  have hp := prefetchBlobs_eq fetch sortedBlobs PREFETCH_CONCURRENCY
    (by norm_num [PREFETCH_CONCURRENCY])
  refine ⟨?_, hp, ?_⟩
  · rw [streamSinglePart, hp]
  · intro u hu
    rw [streamSinglePart] at hu
    simp at hu

theorem singlePart_one_send_witness :
    streamSinglePart (fun _ => [7, 8]) "id" [⟨"u", "p"⟩] =
      [SendEvent.sendData "id" [7, 8] none] := by
  have h := singlePart_one_send (fun _ => [7, 8]) "id" [⟨"u", "p"⟩] (by simp)
  simpa using h.1

/-- C10: in multi-frame mode with input blocks totalling zero bytes (in
particular an empty block list), the transfer emits no sendFileData call,
invokes no onPartSent callback, and still issues exactly one
completeMultiPartUpload call. -/
theorem multiPart_empty_finalize (fetch : BlobInfo → Bytes) (uploadId : String)
    (sortedBlobs : List BlobInfo) (F : Nat) (hF : 0 < F)
    (hz : ((sortedBlobs.map fetch).flatten).length = 0) :
    streamMultiPart fetch uploadId sortedBlobs F =
      [SendEvent.complete uploadId] ∧
    ∀ tfs, streamMultiPartCallbacks F
        (prefetchBlobs fetch sortedBlobs PREFETCH_CONCURRENCY) tfs = [] := by
  have hp := prefetchBlobs_eq fetch sortedBlobs PREFETCH_CONCURRENCY
    (by norm_num [PREFETCH_CONCURRENCY])
  have hjoin : (sortedBlobs.map fetch).flatten = [] := List.length_eq_zero.mp hz
  have hfc : fullChunks F [] = [] := by
    rw [fullChunks, dif_neg (by simp only [List.length_nil]; omega)]
  have hrc : restChunk F [] = [] := by
    rw [restChunk, dif_neg (by simp only [List.length_nil]; omega)]
  have hframes : streamMultiPartFrames F (sortedBlobs.map fetch) = [] := by
    rw [streamMultiPartFrames_eq F hF, hjoin]
    simp [hfc, hrc]
  constructor
  · rw [streamMultiPart, hp, hframes]
    simp
  · intro tfs
    rw [streamMultiPartCallbacks, hp, hframes]
    simp

theorem multiPart_empty_finalize_witness :
    streamMultiPart (fun _ => []) "id" [⟨"u", "p"⟩] 2 =
      [SendEvent.complete "id"] ∧
    streamMultiPartCallbacks 2
        (prefetchBlobs (fun _ => []) [⟨"u", "p"⟩] PREFETCH_CONCURRENCY)
        (some 0) = [] := by
  have h := multiPart_empty_finalize (fun _ => []) "id" [⟨"u", "p"⟩] 2
    (by norm_num) (by simp)
  exact ⟨h.1, h.2 (some 0)⟩

end Rechunker

namespace Retry

theorem go_exhaust (call : Nat → AttemptOutcome) (opts : RetryOptions)
    (jitter : Nat → ℚ) (now : ℚ)
    (hall : ∀ i, i ≤ opts.maxRetries →
      retryableStatusOutcome opts (call i) = true) :
    ∀ n attempt (ha : attempt ≤ opts.maxRetries),
      opts.maxRetries - attempt = n →
      ∃ r, call opts.maxRetries = .resp r ∧
        (fetchWithRetryGo call opts jitter now attempt ha).result =
          .wrapped opts.maxRetries r.status (bodyOrPlaceholder r.body) ∧
        (fetchWithRetryGo call opts jitter now attempt ha).attempts = n + 1 := by
  intro n
  induction n with
  | zero =>
    intro attempt ha hn
    have heq : attempt = opts.maxRetries := by omega
    have h0 := hall attempt (by omega)
    cases hc : call attempt with
    | thrown e => rw [hc] at h0; simp [retryableStatusOutcome] at h0
    | resp r =>
      rw [hc] at h0
      simp only [retryableStatusOutcome, Bool.and_eq_true, Bool.not_eq_true',
        decide_eq_true_eq] at h0
      refine ⟨r, heq ▸ hc, ?_, ?_⟩ <;>
      · rw [fetchWithRetryGo, hc]
        simp [h0.1, h0.2, heq]
  | succ n ih =>
    intro attempt ha hn
    have hne : ¬attempt = opts.maxRetries := by omega
    have h0 := hall attempt (by omega)
    obtain ⟨r, hr, hres, hatt⟩ := ih (attempt + 1) (by omega) (by omega)
    cases hc : call attempt with
    | thrown e => rw [hc] at h0; simp [retryableStatusOutcome] at h0
    | resp r0 =>
      rw [hc] at h0
      simp only [retryableStatusOutcome, Bool.and_eq_true, Bool.not_eq_true',
        decide_eq_true_eq] at h0
      refine ⟨r, hr, ?_, ?_⟩ <;>
      · rw [fetchWithRetryGo, hc]
        simp only [h0.1, Bool.false_eq_true, if_false, h0.2,
          not_true_eq_false, dif_neg hne, ite_false]
        simp [hres, hatt]

theorem go_transport (call : Nat → AttemptOutcome) (opts : RetryOptions)
    (jitter : Nat → ℚ) (now : ℚ) (e : Nat)
    (hearly : ∀ i, i < opts.maxRetries → transientOutcome opts (call i) = true)
    (hlast : call opts.maxRetries = .thrown (.transport e)) :
    ∀ n attempt (ha : attempt ≤ opts.maxRetries),
      opts.maxRetries - attempt = n →
      (fetchWithRetryGo call opts jitter now attempt ha).result =
        .raised (.transport e) ∧
      (fetchWithRetryGo call opts jitter now attempt ha).attempts = n + 1 := by
  intro n
  induction n with
  | zero =>
    intro attempt ha hn
    have heq : attempt = opts.maxRetries := by omega
    have hlast' : call attempt = AttemptOutcome.thrown (CallError.transport e) := by
      rw [heq]; exact hlast
    constructor <;>
    · rw [fetchWithRetryGo, hlast']
      simp [isRetryableError, heq]
  | succ n ih =>
    intro attempt ha hn
    have hne : ¬attempt = opts.maxRetries := by omega
    have h0 := hearly attempt (by omega)
    obtain ⟨hres, hatt⟩ := ih (attempt + 1) (by omega) (by omega)
    cases hc : call attempt with
    | thrown e0 =>
      rw [hc] at h0
      simp only [transientOutcome] at h0
      constructor <;>
      · rw [fetchWithRetryGo, hc]
        simp only [h0, if_true, dif_neg hne, ite_true]
        simp [hres, hatt]
    | resp r0 =>
      rw [hc] at h0
      simp only [transientOutcome, Bool.and_eq_true, Bool.not_eq_true',
        decide_eq_true_eq] at h0
      constructor <;>
      · rw [fetchWithRetryGo, hc]
        simp only [h0.1, Bool.false_eq_true, if_false, h0.2,
          not_true_eq_false, dif_neg hne, ite_false]
        simp [hres, hatt]

/-- C3: a call whose first attempt returns a non-retryable error status makes
exactly one attempt and returns that response unchanged; a call whose every
attempt returns a retryable status makes exactly maxRetries + 1 attempts and
fails with the wrapped terminal error embedding the final status code and the
response body run through the body-or-placeholder rule (the placeholder
standing in when the body read fails or is empty). -/
theorem retry_attempt_counts (call : Nat → AttemptOutcome)
    (opts : RetryOptions) (jitter : Nat → ℚ) (now : ℚ) :
    (∀ r, call 0 = .resp r → r.ok = false →
      r.status ∉ opts.retryableStatuses →
      fetchWithRetry call opts jitter now = ⟨.response r, 1, []⟩) ∧
    ((∀ i, i ≤ opts.maxRetries →
        retryableStatusOutcome opts (call i) = true) →
      ∃ r, call opts.maxRetries = .resp r ∧
        (fetchWithRetry call opts jitter now).result =
          .wrapped opts.maxRetries r.status (bodyOrPlaceholder r.body) ∧
        (fetchWithRetry call opts jitter now).attempts =
          opts.maxRetries + 1) := by
  constructor
  · intro r hc hok hst
    rw [fetchWithRetry, fetchWithRetryGo, hc]
    simp [hok, hst]
  · intro hall
    exact go_exhaust call opts jitter now hall opts.maxRetries 0
      (Nat.zero_le _) (by omega)

theorem retry_attempt_counts_witness :
    fetchWithRetry (fun _ => .resp ⟨404, RAHeader.absent, none⟩)
        ⟨3, 1000, 30000, [429, 500, 502, 503, 504]⟩ (fun _ => 0) 0 =
      ⟨.response ⟨404, RAHeader.absent, none⟩, 1, []⟩ ∧
    ∃ r, AttemptOutcome.resp ⟨500, RAHeader.absent, none⟩ =
        AttemptOutcome.resp r ∧
      (fetchWithRetry (fun _ => .resp ⟨500, RAHeader.absent, none⟩)
          ⟨3, 1000, 30000, [429, 500, 502, 503, 504]⟩ (fun _ => 0) 0).result =
        .wrapped 3 r.status (bodyOrPlaceholder r.body) ∧
      (fetchWithRetry (fun _ => .resp ⟨500, RAHeader.absent, none⟩)
          ⟨3, 1000, 30000, [429, 500, 502, 503, 504]⟩ (fun _ => 0) 0).attempts =
        3 + 1 := by
  constructor
  · exact (retry_attempt_counts (fun _ => .resp ⟨404, RAHeader.absent, none⟩)
      ⟨3, 1000, 30000, [429, 500, 502, 503, 504]⟩ (fun _ => 0) 0).1 _ rfl
      (by decide) (by decide)
  · exact (retry_attempt_counts (fun _ => .resp ⟨500, RAHeader.absent, none⟩)
      ⟨3, 1000, 30000, [429, 500, 502, 503, 504]⟩ (fun _ => 0) 0).2 (by decide)

/-- C4: a transport-level failure on the final attempt makes fetchWithRetry
re-raise the transport error value itself (not the wrapped exhaustion error),
after transport failures or retryable statuses on the earlier attempts have
each consumed one unit of the same retry budget, for maxRetries + 1 attempts
in total. -/
theorem retry_transport_final (call : Nat → AttemptOutcome)
    (opts : RetryOptions) (jitter : Nat → ℚ) (now : ℚ) (e : Nat)
    (hearly : ∀ i, i < opts.maxRetries → transientOutcome opts (call i) = true)
    (hlast : call opts.maxRetries = .thrown (.transport e)) :
    (fetchWithRetry call opts jitter now).result =
      .raised (.transport e) ∧
    (fetchWithRetry call opts jitter now).attempts = opts.maxRetries + 1 :=
  go_transport call opts jitter now e hearly hlast opts.maxRetries 0
    (Nat.zero_le _) (by omega)

theorem retry_transport_final_witness :
    (fetchWithRetry
        (fun i => if i = 0 then .thrown (.transport 5)
          else .thrown (.transport 9))
        ⟨1, 1000, 30000, [429, 500, 502, 503, 504]⟩ (fun _ => 0) 0).result =
      .raised (.transport 9) ∧
    (fetchWithRetry
        (fun i => if i = 0 then .thrown (.transport 5)
          else .thrown (.transport 9))
        ⟨1, 1000, 30000, [429, 500, 502, 503, 504]⟩ (fun _ => 0) 0).attempts =
      1 + 1 :=
  retry_transport_final _ _ _ _ 9 (by decide) (by decide)

/-- C5: before retry attempt a + 1 after a retryable status, the delay slept
is min(baseDelayMs * 2 ^ a + r, maxDelayMs) for some jitter r in
[0, baseDelayMs); when the status is 429 and the Retry-After header parses,
the delay is raised to the maximum with retryAfterMs, which is the header
seconds times 1000, or for an HTTP date the non-negative clamped offset from
now (so a past date contributes 0, never a negative sleep). -/
theorem retry_delay_formula (call : Nat → AttemptOutcome)
    (opts : RetryOptions) (jitter : Nat → ℚ) (now : ℚ) (attempt : Nat)
    (r : HttpResponse) (ha : attempt ≤ opts.maxRetries)
    (hne : attempt ≠ opts.maxRetries)
    (hc : call attempt = .resp r) (hok : r.ok = false)
    (hst : r.status ∈ opts.retryableStatuses)
    (hj : 0 ≤ jitter attempt ∧ jitter attempt < opts.baseDelayMs) :
    ∃ j, 0 ≤ j ∧ j < opts.baseDelayMs ∧
      (fetchWithRetryGo call opts jitter now attempt ha).delays.head? =
        some (
          if r.status = 429 then
            match r.retryAfter with
            | RAHeader.seconds s =>
                max (min (opts.baseDelayMs * 2 ^ attempt + j) opts.maxDelayMs)
                  (s * 1000)
            | RAHeader.httpDate t =>
                max (min (opts.baseDelayMs * 2 ^ attempt + j) opts.maxDelayMs)
                  (max 0 (t - now))
            | RAHeader.absent =>
                min (opts.baseDelayMs * 2 ^ attempt + j) opts.maxDelayMs
            | RAHeader.invalid =>
                min (opts.baseDelayMs * 2 ^ attempt + j) opts.maxDelayMs
          else min (opts.baseDelayMs * 2 ^ attempt + j) opts.maxDelayMs) := by
  refine ⟨jitter attempt, hj.1, hj.2, ?_⟩
  rw [fetchWithRetryGo, hc]
  simp only [hok, Bool.false_eq_true, if_false, hst, not_true_eq_false,
    dif_neg hne, ite_false, List.head?_cons]
  rw [statusDelay, getDelay, parseRetryAfter]
  cases hra : r.retryAfter <;> by_cases h429 : r.status = 429 <;>
    simp [h429, hra]

theorem retry_delay_formula_witness :
    ∃ j, 0 ≤ j ∧ j < (1000 : ℚ) ∧
      (fetchWithRetryGo (fun _ => .resp ⟨429, RAHeader.seconds 2, none⟩)
          ⟨1, 1000, 30000, [429]⟩ (fun _ => 500) 0 0
          (Nat.zero_le _)).delays.head? =
        some (max (min (1000 * 2 ^ 0 + j) 30000) (2 * 1000)) := by
  obtain ⟨j, h1, h2, h3⟩ := retry_delay_formula
    (fun _ => .resp ⟨429, RAHeader.seconds 2, none⟩) ⟨1, 1000, 30000, [429]⟩
    (fun _ => 500) 0 0 ⟨429, RAHeader.seconds 2, none⟩ (Nat.zero_le _)
    (by decide) rfl (by decide) (by decide) (by norm_num)
  exact ⟨j, h1, h2, by simpa using h3⟩

end Retry


namespace Pool

theorem startNext_fixed (K : ℤ) (total : Nat) (s : PoolState) :
    (startNext K total s).completed = s.completed ∧
    (startNext K total s).abortError = s.abortError ∧
    (startNext K total s).result = s.result ∧
    (startNext K total s).progress = s.progress := by
  induction s using startNext.induct K total with
  | case1 s h ih =>
    rw [startNext, dif_pos h]
    exact ih
  | case2 s h =>
    rw [startNext, dif_neg h]
    exact ⟨rfl, rfl, rfl, rfl⟩

theorem startNext_inv (K : ℤ) (total : Nat) (s : PoolState)
    (h1 : s.activeCount = (s.inFlight.length : ℤ))
    (h2 : s.nextIndex = s.completed + s.inFlight.length)
    (h3 : s.nextIndex ≤ total)
    (h4 : s.started = List.range s.nextIndex)
    (h5 : s.activeCount ≤ max K 0) :
    (startNext K total s).activeCount =
      ((startNext K total s).inFlight.length : ℤ) ∧
    (startNext K total s).nextIndex =
      (startNext K total s).completed + (startNext K total s).inFlight.length ∧
    (startNext K total s).nextIndex ≤ total ∧
    (startNext K total s).started = List.range (startNext K total s).nextIndex ∧
    (startNext K total s).activeCount ≤ max K 0 ∧
    ¬((startNext K total s).activeCount < K ∧
      (startNext K total s).nextIndex < total ∧
      (startNext K total s).abortError = none) := by
  induction s using startNext.induct K total with
  | case1 s h ih =>
    rw [startNext, dif_pos h]
    refine ih ?_ ?_ ?_ ?_ ?_ <;> dsimp only
    · simp only [List.length_append, List.length_cons, List.length_nil]
      push_cast
      omega
    · simp only [List.length_append, List.length_cons, List.length_nil]
      omega
    · omega
    · simp only [List.range_succ, h4]
    · have hKmax : K ≤ max K 0 := le_max_left K 0
      omega
  | case2 s h =>
    rw [startNext, dif_neg h]
    exact ⟨h1, h2, h3, h4, h5, h⟩

theorem poolInv_step (K : ℤ) (total : Nat) (outcome : Nat → Option Nat)
    (s : PoolState) (pos : Nat) (hinv : PoolInv K total s) :
    PoolInv K total (settleAt K total outcome s pos) := by
  obtain ⟨u1, u2, u3, u4, hm⟩ := hinv
  rw [settleAt]
  cases hget : s.inFlight.get? pos with
  | none => exact ⟨u1, u2, u3, u4, hm⟩
  | some item =>
    obtain ⟨hpos, -⟩ := List.get?_eq_some.mp hget
    have hlen : (s.inFlight.eraseIdx pos).length = s.inFlight.length - 1 :=
      List.length_eraseIdx_of_lt hpos
    have hfl : 0 < s.inFlight.length := by omega
    cases hab : s.abortError with
    | some e0 =>
      rw [hab] at hm
      dsimp only
      cases houtc : outcome item with
      | none =>
        dsimp only
        rw [if_pos (show ¬(some e0 = none) by simp)]
        exact ⟨by dsimp only; omega, u2, u3, u4, by dsimp only; exact hm⟩
      | some e =>
        dsimp only
        rw [if_pos (show ¬(some e0 = none) by simp)]
        exact ⟨by dsimp only; omega, u2, u3, u4, by dsimp only; exact hm⟩
    | none =>
      rw [hab] at hm
      obtain ⟨m1, m2, m3, m4, m5⟩ := hm
      dsimp only
      cases houtc : outcome item with
      | some e =>
        dsimp only
        have hclt : s.completed < total := by omega
        have hres : s.result = none := by rw [m4, if_neg (by omega)]
        rw [if_neg (show ¬¬((none : Option Nat) = none) by simp)]
        refine ⟨by dsimp only; omega, u2, u3, u4, ?_⟩
        dsimp only
        rw [hres]
        rfl
      | none =>
        dsimp only
        have hclt : s.completed < total := by omega
        have hres : s.result = none := by rw [m4, if_neg (by omega)]
        rw [if_neg (show ¬¬((none : Option Nat) = none) by simp)]
        by_cases hdone : s.completed + 1 = total
        · rw [if_pos hdone]
          refine ⟨?_, ?_, ?_, ?_, ?_⟩ <;> dsimp only
          · push_cast
            omega
          · omega
          · rw [List.range_succ, List.map_append, ← u3]
            rfl
          · exact u4
          · refine ⟨by push_cast; omega, by omega, m3, ?_, by omega⟩
            rw [if_pos hdone, hres]
            rfl
        · rw [if_neg hdone]
          have hsn := startNext_inv K total
            ⟨s.nextIndex, s.activeCount - 1, s.inFlight.eraseIdx pos,
              s.completed + 1, none, s.result,
              s.progress ++ [(s.completed + 1, total)],
              s.started⟩
            (by dsimp only; push_cast; omega)
            (by dsimp only; omega)
            (by dsimp only; omega)
            (by dsimp only; exact u4)
            (by dsimp only; omega)
          have hfx := startNext_fixed K total
            ⟨s.nextIndex, s.activeCount - 1, s.inFlight.eraseIdx pos,
              s.completed + 1, none, s.result,
              s.progress ++ [(s.completed + 1, total)],
              s.started⟩
          obtain ⟨n1, n2, n3, n4, n5, n6⟩ := hsn
          obtain ⟨f1, f2, f3, f4⟩ := hfx
          dsimp only at n1 n2 n3 n4 n5 n6 f1 f2 f3 f4
          refine ⟨by omega, n5, ?_, n4, ?_⟩
          · rw [f4, f1]
            rw [List.range_succ, List.map_append, ← u3]
            rfl
          · rw [f2]
            refine ⟨n1, n2, n3, ?_, ?_⟩
            · rw [f1, f3, hres, if_neg (by omega)]
            · intro hlt
              by_contra hc
              exact n6 ⟨hlt, by omega, f2⟩

theorem poolInv_init (K : ℤ) (total : Nat) :
    PoolInv K total (uploadChunksParallel K total) := by
  rw [uploadChunksParallel]
  by_cases h : total = 0
  · rw [if_pos h]
    subst h
    exact ⟨by simp [initState], by simp [initState], by simp [initState],
      by simp [initState], by simp [initState]⟩
  · rw [if_neg h]
    have hsn := startNext_inv K total initState (by simp [initState])
      (by simp [initState]) (by simp [initState]) (by simp [initState])
      (by simp [initState])
    have hfx := startNext_fixed K total initState
    obtain ⟨n1, n2, n3, n4, n5, n6⟩ := hsn
    obtain ⟨f1, f2, f3, f4⟩ := hfx
    refine ⟨by omega, n5, ?_, n4, ?_⟩
    · rw [f4, f1]
      simp [initState]
    · rw [f2]
      have habi : initState.abortError = none := rfl
      rw [habi]
      refine ⟨n1, n2, n3, ?_, ?_⟩
      · rw [f1, f3]
        have : initState.completed = 0 := rfl
        rw [this, if_neg (by omega)]
        rfl
      · intro hlt
        by_contra hc
        exact n6 ⟨hlt, by omega, by rw [f2]; exact rfl⟩

theorem poolInv_run (K : ℤ) (total : Nat) (outcome : Nat → Option Nat)
    (sched : List Nat) : PoolInv K total (runPool K total outcome sched) := by
  rw [runPool]
  have hstep : ∀ (l : List Nat) (s : PoolState), PoolInv K total s →
      PoolInv K total (l.foldl (settleAt K total outcome) s) := by
    intro l
    induction l with
    | nil => intro s hs; exact hs
    | cons a l ih =>
      intro s hs
      exact ih _ (poolInv_step K total outcome s a hs)
  exact hstep sched _ (poolInv_init K total)

theorem settleAt_frozen (K : ℤ) (total : Nat) (outcome : Nat → Option Nat)
    (s : PoolState) (pos : Nat) (h : s.abortError ≠ none) :
    (settleAt K total outcome s pos).abortError = s.abortError ∧
    (settleAt K total outcome s pos).result = s.result ∧
    (settleAt K total outcome s pos).progress = s.progress ∧
    (settleAt K total outcome s pos).started = s.started ∧
    (settleAt K total outcome s pos).completed = s.completed ∧
    (settleAt K total outcome s pos).nextIndex = s.nextIndex := by
  obtain ⟨e0, habs⟩ : ∃ e0, s.abortError = some e0 := by
    cases hh : s.abortError with
    | none => exact absurd hh h
    | some e0 => exact ⟨e0, rfl⟩
  rw [settleAt]
  cases hget : s.inFlight.get? pos with
  | none => exact ⟨rfl, rfl, rfl, rfl, rfl, rfl⟩
  | some item =>
    dsimp only
    rw [habs]
    cases outcome item <;>
    · dsimp only
      rw [if_pos (show ¬(some e0 = none) by simp)]
      exact ⟨habs.symm ▸ rfl, rfl, rfl, rfl, rfl, rfl⟩

theorem run_frozen (K : ℤ) (total : Nat) (outcome : Nat → Option Nat) :
    ∀ (sched' : List Nat) (s : PoolState), s.abortError ≠ none →
    (sched'.foldl (settleAt K total outcome) s).abortError = s.abortError ∧
    (sched'.foldl (settleAt K total outcome) s).result = s.result ∧
    (sched'.foldl (settleAt K total outcome) s).progress = s.progress ∧
    (sched'.foldl (settleAt K total outcome) s).started = s.started ∧
    (sched'.foldl (settleAt K total outcome) s).completed = s.completed := by
  intro sched'
  induction sched' with
  | nil => intro s h; exact ⟨rfl, rfl, rfl, rfl, rfl⟩
  | cons p l ih =>
    intro s h
    rw [List.foldl_cons]
    have hf := settleAt_frozen K total outcome s p h
    have hr := ih (settleAt K total outcome s p) (by rw [hf.1]; exact h)
    exact ⟨hr.1.trans hf.1, hr.2.1.trans hf.2.1, hr.2.2.1.trans hf.2.2.1,
      hr.2.2.2.1.trans hf.2.2.2.1, hr.2.2.2.2.trans hf.2.2.2.2.1⟩

theorem settleAt_latch (K : ℤ) (total : Nat) (outcome : Nat → Option Nat)
    (s : PoolState) (pos item e : Nat) (hinv : PoolInv K total s)
    (hab : s.abortError = none) (hget : s.inFlight.get? pos = some item)
    (hout : outcome item = some e) :
    (settleAt K total outcome s pos).abortError = some e ∧
    (settleAt K total outcome s pos).result = some (Settled.rejected e) ∧
    (settleAt K total outcome s pos).progress = s.progress ∧
    (settleAt K total outcome s pos).started = s.started ∧
    (settleAt K total outcome s pos).completed = s.completed := by
  obtain ⟨u1, u2, u3, u4, hm⟩ := hinv
  rw [hab] at hm
  obtain ⟨m1, m2, m3, m4, m5⟩ := hm
  obtain ⟨hpos, -⟩ := List.get?_eq_some.mp hget
  have hclt : s.completed < total := by omega
  have hres : s.result = none := by rw [m4, if_neg (by omega)]
  rw [settleAt, hget]
  dsimp only
  rw [hout, hab]
  dsimp only
  rw [if_neg (show ¬¬((none : Option Nat) = none) by simp)]
  refine ⟨rfl, ?_, rfl, rfl, rfl⟩
  dsimp only
  rw [hres]
  rfl

theorem settleAt_abort_none (K : ℤ) (total : Nat) (outcome : Nat → Option Nat)
    (s : PoolState) (pos : Nat) (hout : ∀ i, outcome i = none)
    (hab : s.abortError = none) :
    (settleAt K total outcome s pos).abortError = none := by
  rw [settleAt]
  cases hget : s.inFlight.get? pos with
  | none => exact hab
  | some item =>
    dsimp only
    rw [hout item, hab]
    dsimp only
    rw [if_neg (show ¬¬((none : Option Nat) = none) by simp)]
    by_cases hdone : s.completed + 1 = total
    · rw [if_pos hdone]
    · rw [if_neg hdone]
      exact (startNext_fixed K total _).2.1

theorem run_abort_none (K : ℤ) (total : Nat) (outcome : Nat → Option Nat)
    (hout : ∀ i, outcome i = none) (sched : List Nat) :
    (runPool K total outcome sched).abortError = none := by
  rw [runPool]
  have hinit : (uploadChunksParallel K total).abortError = none := by
    rw [uploadChunksParallel]
    by_cases h : total = 0
    · rw [if_pos h]
      exact rfl
    · rw [if_neg h]
      exact (startNext_fixed K total initState).2.1
  have hstep : ∀ (l : List Nat) (s : PoolState), s.abortError = none →
      (l.foldl (settleAt K total outcome) s).abortError = none := by
    intro l
    induction l with
    | nil => intro s hs; exact hs
    | cons a l ih =>
      intro s hs
      exact ih _ (settleAt_abort_none K total outcome s a hout hs)
  exact hstep sched _ hinit

theorem settleAt_success_head (K : ℤ) (total : Nat)
    (outcome : Nat → Option Nat) (s : PoolState)
    (hout : ∀ i, outcome i = none) (hab : s.abortError = none)
    (hne : s.inFlight ≠ []) :
    (settleAt K total outcome s 0).completed = s.completed + 1 := by
  rw [settleAt]
  cases hget : s.inFlight.get? 0 with
  | none =>
    rw [List.get?_eq_none] at hget
    exact absurd (List.length_eq_zero.mp (by omega)) hne
  | some item =>
    dsimp only
    rw [hout item, hab]
    dsimp only
    rw [if_neg (show ¬¬((none : Option Nat) = none) by simp)]
    by_cases hdone : s.completed + 1 = total
    · rw [if_pos hdone]
    · rw [if_neg hdone]
      exact (startNext_fixed K total _).1

theorem replicate_completes (K : ℤ) (total : Nat)
    (outcome : Nat → Option Nat) (hout : ∀ i, outcome i = none)
    (hK : 1 ≤ K) :
    ∀ (m : Nat) (s : PoolState), PoolInv K total s → s.abortError = none →
    s.completed + m = total →
    ((List.replicate m 0).foldl (settleAt K total outcome) s).completed =
      total := by
  intro m
  induction m with
  | zero =>
    intro s hinv hab hc
    simpa using hc
  | succ m ih =>
    intro s hinv hab hc
    have hne : s.inFlight ≠ [] := by
      intro hnil
      obtain ⟨u1, u2, u3, u4, hm⟩ := hinv
      rw [hab] at hm
      obtain ⟨m1, m2, m3, m4, m5⟩ := hm
      rw [hnil] at m1 m2
      simp at m1 m2
      omega
    rw [List.replicate_succ, List.foldl_cons]
    exact ih (settleAt K total outcome s 0)
      (poolInv_step K total outcome s 0 hinv)
      (settleAt_abort_none K total outcome s 0 hout hab)
      (by rw [settleAt_success_head K total outcome s hout hab hne]; omega)

theorem settleAt_nil (K : ℤ) (total : Nat) (outcome : Nat → Option Nat)
    (s : PoolState) (pos : Nat) (hnil : s.inFlight = []) :
    settleAt K total outcome s pos = s := by
  rw [settleAt, hnil]
  cases pos <;> rfl

theorem run_total_zero (K : ℤ) (outcome : Nat → Option Nat)
    (sched : List Nat) :
    runPool K 0 outcome sched =
      { initState with result := some Settled.resolved } := by
  rw [runPool, uploadChunksParallel, if_pos rfl]
  have hstep : ∀ (l : List Nat) (s : PoolState), s.inFlight = [] →
      l.foldl (settleAt K 0 outcome) s = s := by
    intro l
    induction l with
    | nil => intro s _; rfl
    | cons a l ih =>
      intro s hs
      rw [List.foldl_cons, settleAt_nil K 0 outcome s a hs]
      exact ih s hs
  exact hstep sched _ rfl

/-- C7: with concurrency K ≥ 1 the pool never has more than K worker
invocations in flight under any settlement schedule; when no worker fails,
any run that settles every started worker ends with all N items completed,
the promise resolved, and one onProgress call per item in order, and the
canonical full schedule indeed reaches that completion; the empty item list
resolves immediately with zero progress calls under every schedule. -/
theorem pool_bounded_and_complete (K : ℤ) (total : Nat)
    (outcome : Nat → Option Nat) (sched : List Nat) (hK : 1 ≤ K) :
    ((runPool K total outcome sched).inFlight.length : ℤ) ≤ K ∧
    ((∀ i, outcome i = none) →
      ((runPool K total outcome sched).inFlight = [] →
        (runPool K total outcome sched).completed = total ∧
        (runPool K total outcome sched).result = some Settled.resolved ∧
        (runPool K total outcome sched).progress =
          (List.range total).map fun i => (i + 1, total)) ∧
      (runPool K total outcome (List.replicate total 0)).completed = total ∧
      (runPool K total outcome (List.replicate total 0)).result =
        some Settled.resolved ∧
      (runPool K total outcome (List.replicate total 0)).progress.length =
        total) ∧
    runPool K 0 outcome sched =
      { initState with result := some Settled.resolved } := by
  refine ⟨?_, ?_, run_total_zero K outcome sched⟩
  · obtain ⟨u1, u2, -, -, -⟩ := poolInv_run K total outcome sched
    omega
  · intro hout
    constructor
    · intro hnil
      obtain ⟨u1, u2, u3, u4, hm⟩ := poolInv_run K total outcome sched
      rw [run_abort_none K total outcome hout sched] at hm
      obtain ⟨m1, m2, m3, m4, m5⟩ := hm
      rw [hnil] at m1 m2
      simp only [List.length_nil, Nat.cast_zero, Nat.add_zero] at m1 m2
      have hcomp : (runPool K total outcome sched).completed = total := by
        omega
      refine ⟨hcomp, ?_, ?_⟩
      · rw [m4, if_pos hcomp]
      · rw [u3, hcomp]
    · have hinit0 : (uploadChunksParallel K total).completed = 0 := by
        rw [uploadChunksParallel]
        by_cases h : total = 0
        · rw [if_pos h]
          exact rfl
        · rw [if_neg h]
          exact (startNext_fixed K total initState).1
      have habi : (uploadChunksParallel K total).abortError = none :=
        run_abort_none K total outcome hout []
      have hcomp : (runPool K total outcome
          (List.replicate total 0)).completed = total := by
        rw [runPool]
        exact replicate_completes K total outcome hout hK total _
          (poolInv_init K total) habi (by omega)
      obtain ⟨u1, u2, u3, u4, hm⟩ :=
        poolInv_run K total outcome (List.replicate total 0)
      rw [run_abort_none K total outcome hout (List.replicate total 0)] at hm
      obtain ⟨m1, m2, m3, m4, m5⟩ := hm
      refine ⟨hcomp, ?_, ?_⟩
      · rw [m4, if_pos hcomp]
      · rw [u3, hcomp, List.length_map, List.length_range]

/-- C6: once a worker failure is latched, no further settlement changes the
started list, the progress calls, the settled result or the latched error —
so no new item is ever started, late successes of still-active workers are
not awaited for the outcome, later errors are discarded, and the first error
latched is the one the promise was rejected with; a failing worker settling
while no error is latched latches exactly its error and rejects the promise
with it while leaving progress and starts untouched; and in every reachable
state onProgress has been called exactly once per completed item, in order. -/
theorem pool_failure_latch (K : ℤ) (total : Nat)
    (outcome : Nat → Option Nat) (sched sched' : List Nat)
    (pos item e : Nat) :
    ((runPool K total outcome sched).abortError ≠ none →
      (runPool K total outcome (sched ++ sched')).abortError =
        (runPool K total outcome sched).abortError ∧
      (runPool K total outcome (sched ++ sched')).result =
        (runPool K total outcome sched).result ∧
      (runPool K total outcome (sched ++ sched')).progress =
        (runPool K total outcome sched).progress ∧
      (runPool K total outcome (sched ++ sched')).started =
        (runPool K total outcome sched).started ∧
      (runPool K total outcome (sched ++ sched')).completed =
        (runPool K total outcome sched).completed) ∧
    ((runPool K total outcome sched).abortError = none →
      (runPool K total outcome sched).inFlight.get? pos = some item →
      outcome item = some e →
      (settleAt K total outcome (runPool K total outcome sched)
          pos).abortError = some e ∧
      (settleAt K total outcome (runPool K total outcome sched)
          pos).result = some (Settled.rejected e) ∧
      (settleAt K total outcome (runPool K total outcome sched)
          pos).progress = (runPool K total outcome sched).progress ∧
      (settleAt K total outcome (runPool K total outcome sched)
          pos).started = (runPool K total outcome sched).started) ∧
    (runPool K total outcome sched).progress =
      (List.range (runPool K total outcome sched).completed).map
        fun i => (i + 1, total) := by
  refine ⟨?_, ?_, (poolInv_run K total outcome sched).2.2.1⟩
  · intro hab
    have heq : runPool K total outcome (sched ++ sched') =
        sched'.foldl (settleAt K total outcome)
          (runPool K total outcome sched) := by
      rw [runPool, runPool, List.foldl_append]
    rw [heq]
    exact run_frozen K total outcome sched' _ hab
  · intro hab hget hout
    have h := settleAt_latch K total outcome _ pos item e
      (poolInv_run K total outcome sched) hab hget hout
    exact ⟨h.1, h.2.1, h.2.2.1, h.2.2.2.1⟩

/-- C9 (documenting the divergence): calling the pool with concurrency < 1
on a non-empty item list does not raise a configuration error — startNext
starts nothing, so the run is stuck at the initial state under every
schedule: no worker is started, no progress is reported, and the returned
promise is never settled (result stays none); the call hangs instead of
failing. -/
theorem pool_low_concurrency_hangs (K : ℤ) (total : Nat)
    (outcome : Nat → Option Nat) (sched : List Nat) (hK : K < 1)
    (htotal : total ≠ 0) :
    runPool K total outcome sched = initState := by
  have hinit : uploadChunksParallel K total = initState := by
    rw [uploadChunksParallel, if_neg htotal, startNext,
      dif_neg (by simp [initState]; omega)]
  rw [runPool, hinit]
  have hstep : ∀ (l : List Nat) (s : PoolState), s.inFlight = [] →
      l.foldl (settleAt K total outcome) s = s := by
    intro l
    induction l with
    | nil => intro s _; rfl
    | cons a l ih =>
      intro s hs
      rw [List.foldl_cons, settleAt_nil K total outcome s a hs]
      exact ih s hs
  exact hstep sched initState rfl

theorem pool_bounded_and_complete_witness :
    ((runPool 2 3 (fun _ => none) [0, 0, 0]).inFlight.length : ℤ) ≤ 2 ∧
    (runPool 2 3 (fun _ => none) [0, 0, 0]).completed = 3 ∧
    (runPool 2 3 (fun _ => none) [0, 0, 0]).result = some Settled.resolved ∧
    (runPool 2 3 (fun _ => none) (List.replicate 3 0)).completed = 3 ∧
    runPool 2 0 (fun _ => none) [0, 0, 0] =
      { initState with result := some Settled.resolved } := by
  have h := pool_bounded_and_complete 2 3 (fun _ => none) [0, 0, 0]
    (by norm_num)
  have h0 := pool_bounded_and_complete 2 0 (fun _ => none) [0, 0, 0]
    (by norm_num)
  have h2 := h.2.1 (fun _ => rfl)
  have hnil : (runPool 2 3 (fun _ => none) [0, 0, 0]).inFlight = [] := by
    simp [runPool, uploadChunksParallel, startNext, settleAt, initState,
      settleResult]
  obtain ⟨ha, hb, hc⟩ := h2.1 hnil
  exact ⟨h.1, ha, hb, h2.2.1, h0.2.2⟩

theorem pool_failure_latch_witness :
    (runPool 2 3 (fun i => if i = 0 then some 7 else none)
        ([0] ++ [1])).started =
      (runPool 2 3 (fun i => if i = 0 then some 7 else none) [0]).started ∧
    (runPool 2 3 (fun i => if i = 0 then some 7 else none)
        ([0] ++ [1])).result =
      (runPool 2 3 (fun i => if i = 0 then some 7 else none) [0]).result ∧
    (settleAt 2 3 (fun i => if i = 0 then some 7 else none)
        (runPool 2 3 (fun i => if i = 0 then some 7 else none) [])
        0).abortError = some 7 ∧
    (settleAt 2 3 (fun i => if i = 0 then some 7 else none)
        (runPool 2 3 (fun i => if i = 0 then some 7 else none) [])
        0).result = some (Settled.rejected 7) := by
  have h1 := (pool_failure_latch 2 3 (fun i => if i = 0 then some 7 else none)
    [0] [1] 0 0 7).1 (by
      simp [runPool, uploadChunksParallel, startNext, settleAt, initState,
        settleResult])
  have h2 := (pool_failure_latch 2 3 (fun i => if i = 0 then some 7 else none)
    [] [] 0 0 7).2.1
    (by
      simp [runPool, uploadChunksParallel, startNext, initState])
    (by
      simp [runPool, uploadChunksParallel, startNext, initState])
    (by norm_num)
  exact ⟨h1.2.2.2.1, h1.2.1, h2.1, h2.2.1⟩

theorem pool_low_concurrency_hangs_witness :
    runPool 0 1 (fun _ => none) [0] = initState :=
  pool_low_concurrency_hangs 0 1 (fun _ => none) [0] (by norm_num)
    (by norm_num)

end Pool
